import Mathlib

/-!
Verification of the snp-dists distance kernel (src/main.c): the resolution
table built by `init_table`, the pairwise `distance` function, the matrix
construction loop of `main`, the per-record normalization applied while
loading, and the load-time validation and exit behaviour.
-/

/-- The ignore sentinel, `IGNORE_CHAR` in main.c (line 14). -/
def IGNORE_CHAR : Char := '.'

/-- The constant `MAX_SEQ` of main.c (line 13): the maximum number of
sequences handled. -/
def MAX_SEQ : Nat := 100000

/-- The cells assigned the value 1 by `init_table` (main.c lines 20-38):
the twelve ordered pairs of distinct canonical bases, plus (W,T) and (T,W).
All other cells keep their initial value 0. -/
def tableOnes : List (Char × Char) :=
  [('A', 'C'), ('A', 'G'), ('A', 'T'),
   ('C', 'A'), ('C', 'G'), ('C', 'T'),
   ('G', 'A'), ('G', 'C'), ('G', 'T'),
   ('T', 'A'), ('T', 'C'), ('T', 'G'),
   ('W', 'T'), ('T', 'W')]

/-- The resolution table after `init_table` has run: 1 on the explicitly
assigned cells, 0 everywhere else (the static array is zero-initialized). -/
def table (x y : Char) : Nat :=
  if (x, y) ∈ tableOnes then 1 else 0

/-- The contribution of one loop iteration of `distance` (main.c lines 45-47):
the table entry when the symbols differ and neither is the ignore sentinel,
otherwise 0. Parameterized by the table `t` that the loop body reads. -/
def step (t : Char → Char → Nat) (x y : Char) : Nat :=
  if x ≠ y ∧ x ≠ IGNORE_CHAR ∧ y ≠ IGNORE_CHAR then t x y else 0

/-- The function `distance` of main.c (lines 41-50), parameterized by the
table: the loop
over positions accumulating `step`. Sequences are lists of characters; the
loop bound L is the common length of the two sequences. -/
def distanceT (t : Char → Char → Nat) : List Char → List Char → Nat
  | x :: xs, y :: ys => step t x y + distanceT t xs ys
  | _, _ => 0

/-- The function `distance` as the program calls it, reading the global
`table`. -/
def distance (a b : List Char) : Nat := distanceT table a b

/-- A loaded sequence record: `name[k]` and `seq[k]` in main.c. -/
structure SeqRecord where
  name : String
  bases : List Char
deriving DecidableEq

/-- The matrix printed by main.c lines 186-193, parameterized by the table:
row j holds `distance(seq[j], seq[i], L)` for every column i, rows and
columns in input record order. -/
def buildMatrixT (t : Char → Char → Nat) (rs : List SeqRecord) : List (List Nat) :=
  rs.map (fun r => rs.map (fun s => distanceT t r.bases s.bases))

/-- The matrix as the program computes it, with the global `table`. -/
def buildMatrix (rs : List SeqRecord) : List (List Nat) := buildMatrixT table rs

/-- The spec's per-position contribution, written the way section 4.2 states
it: 0 when the symbols agree, 0 when either is the ignore sentinel, otherwise
the table entry. -/
def specContrib (x y : Char) : Nat :=
  if x = y then 0
  else if x = IGNORE_CHAR ∨ y = IGNORE_CHAR then 0
  else table x y

lemma distanceT_nil_left (t : Char → Char → Nat) (b : List Char) :
    distanceT t [] b = 0 := by
  cases b <;> rfl

lemma distanceT_nil_right (t : Char → Char → Nat) (a : List Char) :
    distanceT t a [] = 0 := by
  cases a <;> rfl

lemma distanceT_cons (t : Char → Char → Nat) (x y : Char) (xs ys : List Char) :
    distanceT t (x :: xs) (y :: ys) = step t x y + distanceT t xs ys := rfl

lemma step_table_eq_specContrib (x y : Char) : step table x y = specContrib x y := by
  unfold step specContrib
  by_cases hxy : x = y
  · simp [hxy]
  · by_cases hx : x = IGNORE_CHAR <;> by_cases hy : y = IGNORE_CHAR <;>
      simp [hxy, hx, hy]

/-- The loop of `distance` computes the pointwise sum of `step` over the
positions, for any table. -/
lemma distanceT_eq_sum (t : Char → Char → Nat) :
    ∀ (a b : List Char) (L : Nat), a.length = L → b.length = L →
      distanceT t a b =
        ∑ i in Finset.range L, step t (a.getD i 'A') (b.getD i 'A') := by
  intro a
  induction a with
  | nil =>
    intro b L ha hb
    subst ha
    simp [distanceT_nil_left]
  | cons x xs ih =>
    intro b L ha hb
    cases b with
    | nil =>
      exfalso
      rw [← ha] at hb
      simp at hb
    | cons y ys =>
      cases L with
      | zero => simp at ha
      | succ n =>
        have ha' : xs.length = n := by simpa using ha
        have hb' : ys.length = n := by simpa using hb
        rw [distanceT_cons, Finset.sum_range_succ']
        simp only [List.getD_cons_succ, List.getD_cons_zero]
        rw [ih ys n ha' hb']
        omega

/-- C1: for sequences a, b of equal length L, `distance(a, b, L)` is the sum
over positions i in [0, L) of the spec's per-position contribution: 0 when
`a[i] == b[i]`, 0 when either symbol is the ignore sentinel, and otherwise
the table entry `substitutes(a[i], b[i])`. The result is a natural number,
hence non-negative. -/
theorem distance_eq_pointwise_sum (a b : List Char) (L : Nat)
    (ha : a.length = L) (hb : b.length = L) :
    distance a b =
      ∑ i in Finset.range L, specContrib (a.getD i 'A') (b.getD i 'A') := by
  rw [distance, distanceT_eq_sum table a b L ha hb]
  exact Finset.sum_congr rfl (fun i _ => step_table_eq_specContrib _ _)

/-- C1 witness: the theorem applied to the concrete pair ACGT / ACGA. -/
theorem distance_eq_pointwise_sum_witness :
    distance ['A', 'C', 'G', 'T'] ['A', 'C', 'G', 'A'] =
      ∑ i in Finset.range 4,
        specContrib (['A', 'C', 'G', 'T'].getD i 'A')
          (['A', 'C', 'G', 'A'].getD i 'A') :=
  distance_eq_pointwise_sum ['A', 'C', 'G', 'T'] ['A', 'C', 'G', 'A'] 4 rfl rfl

/-- A default record, standing for an out-of-range array read. -/
def defRec : SeqRecord := ⟨"", []⟩

lemma getD_map_of_lt {α β : Type} (f : α → β) :
    ∀ (l : List α) (i : Nat), i < l.length →
      ∀ (d : β) (e : α), (l.map f).getD i d = f (l.getD i e) := by
  intro l
  induction l with
  | nil => intro i hi; simp at hi
  | cons a as ih =>
    intro i hi d e
    cases i with
    | zero => rfl
    | succ n =>
      have hn : n < as.length := by simpa using hi
      simp only [List.map_cons, List.getD_cons_succ]
      exact ih n hn d e

lemma getD_of_ge {α : Type} :
    ∀ (l : List α) (i : Nat), l.length ≤ i → ∀ (d : α), l.getD i d = d := by
  intro l
  induction l with
  | nil => intro i _ d; cases i <;> rfl
  | cons a as ih =>
    intro i hi d
    cases i with
    | zero => simp at hi
    | succ n =>
      have hn : as.length ≤ n := by simpa using hi
      simp only [List.getD_cons_succ]
      exact ih n hn d

lemma buildMatrixT_length (t : Char → Char → Nat) (rs : List SeqRecord) :
    (buildMatrixT t rs).length = rs.length := by
  simp [buildMatrixT]

lemma buildMatrixT_entry (t : Char → Char → Nat) (rs : List SeqRecord)
    (i j : Nat) (hi : i < rs.length) (hj : j < rs.length) :
    ((buildMatrixT t rs).getD i []).getD j 0 =
      distanceT t (rs.getD i defRec).bases (rs.getD j defRec).bases := by
  unfold buildMatrixT
  rw [getD_map_of_lt (fun r => rs.map (fun s => distanceT t r.bases s.bases))
      rs i hi [] defRec]
  rw [getD_map_of_lt (fun s => distanceT t (rs.getD i defRec).bases s.bases)
      rs j hj 0 defRec]

/-- C2: for a list of equal-length records, the matrix holds all N×N ordered
pairs, including the diagonal and both (i,j) and (j,i): it has one row per
record, rows and columns indexed in input record order with no sorting,
entry (i,j) is `distance(records[i].bases, records[j].bases)`, and the
header columns are the record names in input order. -/
theorem buildMatrix_complete (rs : List SeqRecord) (L : Nat)
    (_hL : ∀ r ∈ rs, r.bases.length = L) :
    (∀ i, i < rs.length →
      (rs.map SeqRecord.name).getD i "" = (rs.getD i defRec).name) ∧
    (buildMatrix rs).length = rs.length ∧
    (∀ i, i < rs.length → ((buildMatrix rs).getD i []).length = rs.length) ∧
    (∀ i j, i < rs.length → j < rs.length →
      ((buildMatrix rs).getD i []).getD j 0 =
        distance (rs.getD i defRec).bases (rs.getD j defRec).bases) := by
  refine ⟨?_, buildMatrixT_length table rs, ?_, ?_⟩
  · intro i hi
    rw [getD_map_of_lt SeqRecord.name rs i hi "" defRec]
  · intro i hi
    unfold buildMatrix buildMatrixT
    rw [getD_map_of_lt (fun r => rs.map (fun s => distanceT table r.bases s.bases))
        rs i hi [] defRec]
    simp
  · intro i j hi hj
    exact buildMatrixT_entry table rs i j hi hj

/-- C2 witness: the theorem applied to two concrete records of length 2,
reading the off-diagonal entry (0, 1). -/
theorem buildMatrix_complete_witness :
    ((buildMatrix [⟨"s1", ['A', 'C']⟩, ⟨"s2", ['A', 'G']⟩]).getD 0 []).getD 1 0 =
      distance (([⟨"s1", ['A', 'C']⟩, ⟨"s2", ['A', 'G']⟩].getD 0 defRec)).bases
        (([⟨"s1", ['A', 'C']⟩, ⟨"s2", ['A', 'G']⟩].getD 1 defRec)).bases :=
  (buildMatrix_complete [⟨"s1", ['A', 'C']⟩, ⟨"s2", ['A', 'G']⟩] 2
    (by decide)).2.2.2 0 1 (by decide) (by decide)

lemma step_self (t : Char → Char → Nat) (x : Char) : step t x x = 0 := by
  simp [step]

lemma distanceT_self (t : Char → Char → Nat) :
    ∀ s : List Char, distanceT t s s = 0 := by
  intro s
  induction s with
  | nil => rfl
  | cons x xs ih => rw [distanceT_cons, step_self, ih]

/-- C6: for every table and every sequence s, `distance(s, s, L) = 0` (each
position compares a symbol with itself and contributes 0), and consequently
every diagonal entry of the matrix is 0. -/
theorem distance_self_eq_zero :
    (∀ (t : Char → Char → Nat) (s : List Char), distanceT t s s = 0) ∧
    (∀ s : List Char, distance s s = 0) ∧
    (∀ (rs : List SeqRecord) (i : Nat),
      ((buildMatrix rs).getD i []).getD i 0 = 0) := by
  refine ⟨distanceT_self, fun s => distanceT_self table s, ?_⟩
  intro rs i
  by_cases hi : i < rs.length
  · rw [buildMatrix, buildMatrixT_entry table rs i i hi hi]
    exact distanceT_self table _
  · have hlen : (buildMatrix rs).length ≤ i := by
      rw [buildMatrix, buildMatrixT_length]
      omega
    rw [getD_of_ge _ i hlen []]
    rfl

lemma step_sentinel_left (t : Char → Char → Nat) (y : Char) :
    step t IGNORE_CHAR y = 0 := by
  simp [step]

lemma step_sentinel_right (t : Char → Char → Nat) (x : Char) :
    step t x IGNORE_CHAR = 0 := by
  simp [step]

lemma distanceT_set_left_le (t : Char → Char → Nat) :
    ∀ (a b : List Char) (i : Nat),
      distanceT t (a.set i IGNORE_CHAR) b ≤ distanceT t a b := by
  intro a
  induction a with
  | nil => intro b i; simp
  | cons x xs ih =>
    intro b i
    cases b with
    | nil => rw [distanceT_nil_right, distanceT_nil_right]
    | cons y ys =>
      cases i with
      | zero =>
        rw [List.set_cons_zero, distanceT_cons, distanceT_cons,
          step_sentinel_left]
        exact Nat.add_le_add_right (Nat.zero_le _) _
      | succ n =>
        rw [List.set_cons_succ, distanceT_cons, distanceT_cons]
        exact Nat.add_le_add_left (ih ys n) _

lemma distanceT_set_right_le (t : Char → Char → Nat) :
    ∀ (a b : List Char) (i : Nat),
      distanceT t a (b.set i IGNORE_CHAR) ≤ distanceT t a b := by
  intro a
  induction a with
  | nil => intro b i; rw [distanceT_nil_left, distanceT_nil_left]
  | cons x xs ih =>
    intro b i
    cases b with
    | nil => simp
    | cons y ys =>
      cases i with
      | zero =>
        rw [List.set_cons_zero, distanceT_cons, distanceT_cons,
          step_sentinel_right]
        exact Nat.add_le_add_right (Nat.zero_le _) _
      | succ n =>
        rw [List.set_cons_succ, distanceT_cons, distanceT_cons]
        exact Nat.add_le_add_left (ih ys n) _

lemma getD_set_self {α : Type} :
    ∀ (l : List α) (i : Nat), i < l.length →
      ∀ (c d : α), (l.set i c).getD i d = c := by
  intro l
  induction l with
  | nil => intro i hi; simp at hi
  | cons a as ih =>
    intro i hi c d
    cases i with
    | zero => rfl
    | succ n =>
      have hn : n < as.length := by simpa using hi
      rw [List.set_cons_succ, List.getD_cons_succ]
      exact ih n hn c d

/-- C5: for any table, replacing the symbol of either sequence at any
position with the ignore sentinel never increases the computed distance, and
a position where both sequences hold the sentinel contributes 0 regardless of
the table contents. -/
theorem ignore_sentinel_absorption (t : Char → Char → Nat)
    (a b : List Char) (i : Nat) :
    distanceT t (a.set i IGNORE_CHAR) b ≤ distanceT t a b ∧
    distanceT t a (b.set i IGNORE_CHAR) ≤ distanceT t a b ∧
    step t ((a.set i IGNORE_CHAR).getD i 'A')
      ((b.set i IGNORE_CHAR).getD i 'A') = 0 := by
  refine ⟨distanceT_set_left_le t a b i, distanceT_set_right_le t a b i, ?_⟩
  by_cases hia : i < a.length
  · rw [getD_set_self a i hia]
    exact step_sentinel_left t _
  · have ha : (a.set i IGNORE_CHAR) = a := List.set_eq_of_length_le (by omega)
    by_cases hib : i < b.length
    · rw [getD_set_self b i hib]
      exact step_sentinel_right t _
    · have hb : (b.set i IGNORE_CHAR) = b := List.set_eq_of_length_le (by omega)
      rw [ha, hb, getD_of_ge a i (by omega), getD_of_ge b i (by omega)]
      exact step_self t 'A'

lemma tableOnes_swap : ∀ p ∈ tableOnes, (p.2, p.1) ∈ tableOnes := by decide

lemma tableOnes_mem_symm (x y : Char) (h : (x, y) ∈ tableOnes) :
    (y, x) ∈ tableOnes :=
  tableOnes_swap (x, y) h

lemma table_symm (x y : Char) : table x y = table y x := by
  unfold table
  by_cases h : (x, y) ∈ tableOnes
  · rw [if_pos h, if_pos (tableOnes_mem_symm x y h)]
  · rw [if_neg h, if_neg (fun h2 => h (tableOnes_mem_symm y x h2))]

lemma step_comm (t : Char → Char → Nat) (ht : ∀ x y, t x y = t y x)
    (x y : Char) : step t x y = step t y x := by
  unfold step
  by_cases hxy : x = y
  · subst hxy; rfl
  · by_cases hx : x = IGNORE_CHAR <;> by_cases hy : y = IGNORE_CHAR <;>
      simp [hxy, Ne.symm hxy, hx, hy, ht x y]

lemma distanceT_comm (t : Char → Char → Nat) (ht : ∀ x y, t x y = t y x) :
    ∀ a b : List Char, distanceT t a b = distanceT t b a := by
  intro a
  induction a with
  | nil => intro b; rw [distanceT_nil_left, distanceT_nil_right]
  | cons x xs ih =>
    intro b
    cases b with
    | nil => rw [distanceT_nil_left, distanceT_nil_right]
    | cons y ys => rw [distanceT_cons, distanceT_cons, step_comm t ht, ih ys]

lemma buildMatrixT_row_length (t : Char → Char → Nat) (rs : List SeqRecord)
    (i : Nat) (hi : i < rs.length) :
    ((buildMatrixT t rs).getD i []).length = rs.length := by
  unfold buildMatrixT
  rw [getD_map_of_lt (fun r => rs.map (fun s => distanceT t r.bases s.bases))
      rs i hi [] defRec]
  simp

lemma buildMatrixT_entry_zero_of_ge (t : Char → Char → Nat)
    (rs : List SeqRecord) (i j : Nat) (h : rs.length ≤ i ∨ rs.length ≤ j) :
    ((buildMatrixT t rs).getD i []).getD j 0 = 0 := by
  by_cases hi : i < rs.length
  · have hj : rs.length ≤ j := by omega
    rw [getD_of_ge _ j (by rw [buildMatrixT_row_length t rs i hi]; omega)]
  · rw [getD_of_ge (buildMatrixT t rs) i
      (by rw [buildMatrixT_length]; omega)]
    rw [getD_of_ge ([] : List Nat) j (by simp)]

/-- C7: the table built by `init_table` is symmetric, and for every symmetric
table the computed matrix satisfies `matrix[i][j] = matrix[j][i]` for all
record indices i, j. -/
theorem matrix_symmetric :
    (∀ x y : Char, table x y = table y x) ∧
    (∀ t : Char → Char → Nat, (∀ x y, t x y = t y x) →
      ∀ (rs : List SeqRecord) (i j : Nat),
        ((buildMatrixT t rs).getD i []).getD j 0 =
          ((buildMatrixT t rs).getD j []).getD i 0) := by
  refine ⟨table_symm, ?_⟩
  intro t ht rs i j
  by_cases hi : i < rs.length
  · by_cases hj : j < rs.length
    · rw [buildMatrixT_entry t rs i j hi hj, buildMatrixT_entry t rs j i hj hi]
      exact distanceT_comm t ht _ _
    · rw [buildMatrixT_entry_zero_of_ge t rs i j (Or.inr (by omega)),
        buildMatrixT_entry_zero_of_ge t rs j i (Or.inl (by omega))]
  · rw [buildMatrixT_entry_zero_of_ge t rs i j (Or.inl (by omega)),
      buildMatrixT_entry_zero_of_ge t rs j i (Or.inr (by omega))]

/-- C7 witness: symmetry of the concrete matrix of two records at the
off-diagonal pair (0, 1), using the program's own table, whose symmetry is
the first part of the theorem. -/
theorem matrix_symmetric_witness :
    ((buildMatrixT table [⟨"s1", ['A', 'C']⟩, ⟨"s2", ['A', 'G']⟩]).getD 0 []).getD 1 0 =
      ((buildMatrixT table [⟨"s1", ['A', 'C']⟩, ⟨"s2", ['A', 'G']⟩]).getD 1 []).getD 0 0 :=
  matrix_symmetric.2 table matrix_symmetric.1
    [⟨"s1", ['A', 'C']⟩, ⟨"s2", ['A', 'G']⟩] 0 1

lemma table_le_one (x y : Char) : table x y ≤ 1 := by
  unfold table
  split <;> omega

lemma distanceT_le_length (t : Char → Char → Nat) (ht : ∀ x y, t x y ≤ 1) :
    ∀ a b : List Char, distanceT t a b ≤ a.length := by
  intro a
  induction a with
  | nil => intro b; rw [distanceT_nil_left]; exact Nat.zero_le _
  | cons x xs ih =>
    intro b
    cases b with
    | nil => rw [distanceT_nil_right]; exact Nat.zero_le _
    | cons y ys =>
      rw [distanceT_cons]
      have hstep : step t x y ≤ 1 := by
        unfold step
        split
        · exact ht x y
        · omega
      simpa [Nat.add_comm] using Nat.add_le_add hstep (ih ys)

/-- C10: every entry of the table built by `init_table` is 0 or 1, hence for
sequences a, b of equal length L the distance is at most L: each position
contributes at most 1. -/
theorem distance_le_length :
    (∀ x y : Char, table x y = 0 ∨ table x y = 1) ∧
    (∀ (a b : List Char) (L : Nat), a.length = L → b.length = L →
      distance a b ≤ L) := by
  constructor
  · intro x y
    unfold table
    split
    · exact Or.inr rfl
    · exact Or.inl rfl
  · intro a b L ha _
    rw [distance, ← ha]
    exact distanceT_le_length table table_le_one a b

/-- C10 witness: the bound applied to a concrete pair of length 2. -/
theorem distance_le_length_witness : distance ['A', 'C'] ['A', 'G'] ≤ 2 :=
  distance_le_length.2 ['A', 'C'] ['A', 'G'] 2 rfl rfl

/-- Spec-side definition (section 4.1 and glossary): the set of definite
bases an IUPAC nucleotide symbol can represent. Unlisted symbols represent
no definite base. -/
def specBases (c : Char) : List Char :=
  match c with
  | 'A' => ['A']
  | 'C' => ['C']
  | 'G' => ['G']
  | 'T' => ['T']
  | 'R' => ['A', 'G']
  | 'Y' => ['C', 'T']
  | 'S' => ['C', 'G']
  | 'W' => ['A', 'T']
  | 'K' => ['G', 'T']
  | 'M' => ['A', 'C']
  | 'B' => ['C', 'G', 'T']
  | 'D' => ['A', 'G', 'T']
  | 'H' => ['A', 'C', 'T']
  | 'V' => ['A', 'C', 'G']
  | 'N' => ['A', 'C', 'G', 'T']
  | _ => []

/-- Spec-side definition: decides whether the possible-base sets of two
symbols are disjoint (share no definite base). -/
def specDisjoint (x y : Char) : Bool :=
  (specBases x).all (fun b => !((specBases y).contains b))

/-- The four canonical bases recognized by the cleaning loop of main.c
(line 153). -/
def ACGT : List Char := ['A', 'C', 'G', 'T']

/-- The IUPAC alphabet named by the spec: canonical bases plus ambiguity
codes. -/
def iupacAlphabet : List Char :=
  ['A', 'C', 'G', 'T', 'R', 'Y', 'S', 'W', 'K', 'M', 'B', 'D', 'H', 'V', 'N']

/-- C3 counterexample: the possible-base sets of W and C are disjoint, yet
the table built by `init_table` gives `substitutes('W', 'C') = 0`, not 1: the
claim "disjoint implies 1" fails at the pair (W, C). -/
theorem table_W_C_zero_despite_disjoint :
    specDisjoint 'W' 'C' = true ∧ table 'W' 'C' = 0 := by decide

/-- C3 amended: `substitutes(x, y) = 1` for every ordered pair of distinct
canonical bases, and `'A'` vs `'C'` contributes 1; but disjointness of
possible-base sets does not imply 1 in general: only the explicitly
populated cells are 1, and in particular `'W'` vs `'C'` contributes 0. -/
theorem table_one_on_distinct_canonical :
    (∀ x ∈ ACGT, ∀ y ∈ ACGT, x ≠ y → table x y = 1) ∧
    table 'A' 'C' = 1 ∧ table 'W' 'C' = 0 := by decide

/-- C3 amended witness: the amended theorem applied to the concrete
canonical pair (G, T). -/
theorem table_one_on_distinct_canonical_witness : table 'G' 'T' = 1 :=
  table_one_on_distinct_canonical.1 'G' (by decide) 'T' (by decide) (by decide)

/-- C4 counterexample: the possible-base sets of W (A or T) and T intersect,
yet `init_table` sets `substitutes('W', 'T') = 1`: the claim "intersecting
sets imply 0" fails at the pair (W, T). -/
theorem table_W_T_one_despite_overlap :
    specDisjoint 'W' 'T' = false ∧ table 'W' 'T' = 1 := by decide

/-- C4 amended: unpopulated cells default to 0, so `'A'` vs `'N'` and `'A'`
vs `'R'` contribute 0; and over the IUPAC alphabet every pair with
intersecting possible-base sets contributes 0 except the explicitly
populated pair W-T (either order), which contributes 1. -/
theorem table_zero_on_overlap_except_WT :
    table 'A' 'N' = 0 ∧ table 'A' 'R' = 0 ∧ table 'W' 'T' = 1 ∧
    (∀ x ∈ iupacAlphabet, ∀ y ∈ iupacAlphabet,
      specDisjoint x y = false → ¬(x = 'W' ∧ y = 'T') → ¬(x = 'T' ∧ y = 'W') →
      table x y = 0) := by decide

/-- C4 amended witness: the amended theorem applied to the concrete
intersecting pair (M, A), whose table entry is 0. -/
theorem table_zero_on_overlap_except_WT_witness : table 'M' 'A' = 0 :=
  table_zero_on_overlap_except_WT.2.2.2 'M' (by decide) 'A' (by decide)
    (by decide) (by decide) (by decide)

/-- C `toupper` restricted to the ASCII range, as applied by main.c lines
144-148: lowercase letters are mapped to their uppercase counterparts. -/
def toUpperAscii (c : Char) : Char :=
  if 'a' ≤ c ∧ c ≤ 'z' then Char.ofNat (c.toNat - 32) else c

/-- The cleaning step of main.c lines 151-157: any character other than the
four uppercase canonical bases is replaced by the ignore sentinel. -/
def cleanChar (c : Char) : Char :=
  if c ≠ 'A' ∧ c ≠ 'T' ∧ c ≠ 'C' ∧ c ≠ 'G' then IGNORE_CHAR else c

/-- The per-record normalization of main.c lines 143-157: uppercase unless
`keepcase` (-k) is set, then restrict to ACGT unless `allchars` (-a) is
set. -/
def normalizeSeq (keepcase allchars : Bool) (s : List Char) : List Char :=
  let s1 := if keepcase then s else s.map toUpperAscii
  if allchars then s1 else s1.map cleanChar

/-- C8 counterexample: with keep-case enabled, comparing `acgt` against
`ACGT` does not give distance 4 — neither with the default cleaning (the
lowercase letters become the ignore sentinel) nor with count-all-characters
(the lowercase/uppercase cells of the table are unpopulated): both give 0. -/
theorem keepcase_acgt_not_four :
    distance (normalizeSeq true false ['a', 'c', 'g', 't'])
        (normalizeSeq true false ['A', 'C', 'G', 'T']) ≠ 4 ∧
    distance (normalizeSeq true true ['a', 'c', 'g', 't'])
        (normalizeSeq true true ['A', 'C', 'G', 'T']) ≠ 4 := by decide

/-- C8 amended: with keep-case enabled, comparing `acgt` against `ACGT`
yields distance 0, not 4: without count-all-characters the lowercase letters
are replaced by the ignore sentinel and every position is skipped; with
count-all-characters every position differs but each lowercase/uppercase
pair hits an unpopulated table cell, which defaults to 0. -/
theorem keepcase_acgt_zero :
    distance (normalizeSeq true false ['a', 'c', 'g', 't'])
        (normalizeSeq true false ['A', 'C', 'G', 'T']) = 0 ∧
    distance (normalizeSeq true true ['a', 'c', 'g', 't'])
        (normalizeSeq true true ['A', 'C', 'G', 'T']) = 0 := by decide

/-- The fatal conditions of main.c: missing filename argument (line 94),
file open failure (line 106), length mismatch (line 123), too many
sequences (line 130), empty input (line 165). -/
inductive LoadError where
  | noFilename
  | openFail
  | noSequences
  | lengthMismatch (idx : Nat)
  | tooMany
deriving DecidableEq

/-- The sequence-loading loop of main.c lines 117-161: N counts the records
stored so far, L is the expected length (`none` before the first record is
read). Each incoming record is checked against L and against MAX_SEQ, then
normalized and stored; any failure aborts the whole run. -/
def loadLoop (keepcase allchars : Bool) :
    List (String × List Char) → Nat → Option Nat →
    Except LoadError (List SeqRecord)
  | [], _, _ => .ok []
  | (nm, s) :: rest, N, L =>
    if s.length ≠ L.getD s.length then .error (.lengthMismatch (N + 1))
    else if MAX_SEQ ≤ N then .error .tooMany
    else
      match loadLoop keepcase allchars rest (N + 1) (some (L.getD s.length)) with
      | .error e => .error e
      | .ok rs => .ok (⟨nm, normalizeSeq keepcase allchars s⟩ :: rs)

/-- The observable run of main.c after option parsing: `none` models a
missing filename argument, `some none` a file that cannot be opened, and
`some (some recs)` the records read from the opened file. On success the
result is the sequence names in input order and the distance matrix. -/
def runMain (keepcase allchars : Bool)
    (input : Option (Option (List (String × List Char)))) :
    Except LoadError (List String × List (List Nat)) :=
  match input with
  | none => .error .noFilename
  | some none => .error .openFail
  | some (some recs) =>
    match loadLoop keepcase allchars recs 0 none with
    | .error e => .error e
    | .ok rs =>
      if rs.length < 1 then .error .noSequences
      else .ok (rs.map SeqRecord.name, buildMatrix rs)

lemma loadLoop_cons (keepcase allchars : Bool) (nm : String) (s : List Char)
    (rest : List (String × List Char)) (N : Nat) (L : Option Nat) :
    loadLoop keepcase allchars ((nm, s) :: rest) N L =
      if s.length ≠ L.getD s.length then .error (.lengthMismatch (N + 1))
      else if MAX_SEQ ≤ N then .error .tooMany
      else
        match loadLoop keepcase allchars rest (N + 1) (some (L.getD s.length)) with
        | .error e => .error e
        | .ok rs => .ok (⟨nm, normalizeSeq keepcase allchars s⟩ :: rs) := rfl

lemma getD_mem {α : Type} :
    ∀ (l : List α) (i : Nat), i < l.length → ∀ d : α, l.getD i d ∈ l := by
  intro l
  induction l with
  | nil => intro i hi; simp at hi
  | cons a as ih =>
    intro i hi d
    cases i with
    | zero => exact List.mem_cons_self a as
    | succ n =>
      have hn : n < as.length := by simpa using hi
      rw [List.getD_cons_succ]
      exact List.mem_cons_of_mem a (ih n hn d)

lemma loadLoop_error_of_mismatch (keepcase allchars : Bool) :
    ∀ (recs : List (String × List Char)) (N L0 : Nat),
      (∃ r ∈ recs, r.2.length ≠ L0) →
      ∃ e, loadLoop keepcase allchars recs N (some L0) = .error e := by
  intro recs
  induction recs with
  | nil =>
    intro N L0 hex
    rcases hex with ⟨r, hr, _⟩
    simp at hr
  | cons p rest ih =>
    intro N L0 hex
    obtain ⟨nm, s⟩ := p
    rw [loadLoop_cons]
    simp only [Option.getD_some]
    by_cases hl : s.length ≠ L0
    · rw [if_pos hl]
      exact ⟨.lengthMismatch (N + 1), rfl⟩
    · rw [if_neg hl]
      by_cases hN : MAX_SEQ ≤ N
      · rw [if_pos hN]
        exact ⟨.tooMany, rfl⟩
      · rw [if_neg hN]
        push_neg at hl
        have hrest : ∃ r ∈ rest, r.2.length ≠ L0 := by
          rcases hex with ⟨r, hr, hne⟩
          rcases List.mem_cons.mp hr with rfl | hr'
          · exact absurd hl (by simpa using hne)
          · exact ⟨r, hr', hne⟩
        obtain ⟨e, herr⟩ := ih (N + 1) L0 hrest
        rw [herr]
        exact ⟨e, rfl⟩

lemma loadLoop_error_of_too_many (keepcase allchars : Bool) :
    ∀ (recs : List (String × List Char)) (N : Nat) (L : Option Nat),
      recs ≠ [] → MAX_SEQ < N + recs.length →
      ∃ e, loadLoop keepcase allchars recs N L = .error e := by
  intro recs
  induction recs with
  | nil => intro N L hne _; exact absurd rfl hne
  | cons p rest ih =>
    intro N L _ hcount
    obtain ⟨nm, s⟩ := p
    rw [loadLoop_cons]
    by_cases hl : s.length ≠ L.getD s.length
    · rw [if_pos hl]
      exact ⟨.lengthMismatch (N + 1), rfl⟩
    · rw [if_neg hl]
      by_cases hN : MAX_SEQ ≤ N
      · rw [if_pos hN]
        exact ⟨.tooMany, rfl⟩
      · rw [if_neg hN]
        have hrest_ne : rest ≠ [] := by
          intro hnil
          subst hnil
          simp only [List.length_cons, List.length_nil] at hcount
          omega
        have hrest_count : MAX_SEQ < (N + 1) + rest.length := by
          simp only [List.length_cons] at hcount
          omega
        obtain ⟨e, herr⟩ :=
          ih (N + 1) (some (L.getD s.length)) hrest_ne hrest_count
        rw [herr]
        exact ⟨e, rfl⟩

/-- C9: the run fails on each of: no filename argument, file open failure,
zero sequences read, a record whose length differs from the first record's
length, and more records than MAX_SEQ. A length mismatch is already
reported by the loading loop, before any distance is computed, so a run
with mismatched lengths never returns a matrix, partial or otherwise. -/
theorem run_exit_behavior (keepcase allchars : Bool) :
    runMain keepcase allchars none = .error .noFilename ∧
    runMain keepcase allchars (some none) = .error .openFail ∧
    runMain keepcase allchars (some (some [])) = .error .noSequences ∧
    (∀ recs : List (String × List Char),
      (∃ k, k < recs.length ∧
        (recs.getD k ("", [])).2.length ≠ (recs.getD 0 ("", [])).2.length) →
      ∃ e, loadLoop keepcase allchars recs 0 none = .error e ∧
        runMain keepcase allchars (some (some recs)) = .error e ∧
        ∀ out, runMain keepcase allchars (some (some recs)) ≠ .ok out) ∧
    (∀ recs : List (String × List Char), MAX_SEQ < recs.length →
      ∃ e, runMain keepcase allchars (some (some recs)) = .error e) := by
  refine ⟨rfl, rfl, rfl, ?_, ?_⟩
  · intro recs hex
    obtain ⟨k, hk, hne⟩ := hex
    cases recs with
    | nil => simp at hk
    | cons r0 rest =>
      obtain ⟨nm, s⟩ := r0
      cases k with
      | zero => exact absurd rfl hne
      | succ k' =>
        have hk' : k' < rest.length := by simpa using hk
        have hne' : (rest.getD k' ("", [])).2.length ≠ s.length := by
          simpa using hne
        have hrest : ∃ r ∈ rest, r.2.length ≠ s.length :=
          ⟨rest.getD k' ("", []), getD_mem rest k' hk' ("", []), hne'⟩
        obtain ⟨e, herr⟩ :=
          loadLoop_error_of_mismatch keepcase allchars rest 1 s.length hrest
        have htop :
            loadLoop keepcase allchars ((nm, s) :: rest) 0 none = .error e := by
          rw [loadLoop_cons]
          simp only [Option.getD_none]
          rw [if_neg (by omega : ¬ s.length ≠ s.length),
            if_neg (by decide : ¬ MAX_SEQ ≤ 0), herr]
        refine ⟨e, htop, ?_, ?_⟩
        · simp only [runMain, htop]
        · intro out
          simp only [runMain, htop]
          exact fun h => Except.noConfusion h
  · intro recs hcount
    have hne : recs ≠ [] := by
      intro hnil
      subst hnil
      simp only [List.length_nil] at hcount
      omega
    obtain ⟨e, herr⟩ := loadLoop_error_of_too_many keepcase allchars recs 0 none
      hne (by omega)
    refine ⟨e, ?_⟩
    simp only [runMain, herr]

/-- C9 witness: a concrete two-record input whose second record has length 1
while the first has length 2; the run reports the mismatch from the loading
loop and returns no matrix. -/
theorem run_exit_behavior_witness :
    ∃ e, loadLoop false false [("s1", ['A', 'C']), ("s2", ['A'])] 0 none = .error e ∧
      runMain false false (some (some [("s1", ['A', 'C']), ("s2", ['A'])])) = .error e ∧
      ∀ out, runMain false false (some (some [("s1", ['A', 'C']), ("s2", ['A'])])) ≠ .ok out :=
  (run_exit_behavior false false).2.2.2.1 [("s1", ['A', 'C']), ("s2", ['A'])]
    ⟨1, by decide, by decide⟩
